import Mathlib

/-!
Verification development for the interactive text buffer
(`packages/cli/src/ui/components/shared/text-buffer.ts`).

Strings are modelled as `List Char`: one Lean `Char` per Unicode code point,
matching the source's uniform use of code-point indexing (`toCodePoints`,
`cpLen`, `cpSlice`).  JavaScript's UTF-16 `String.length` is modelled
separately by `jsLen` where the source uses `.length` on raw strings.
-/

/-- Convert a Lean string literal to the `List Char` model. -/
def str (s : String) : List Char := s.toList

/-- Modelled from the spec (textUtils is not under src/): `cpLen(s)` is the
count of code points of `s`. -/
def cpLen (s : List Char) : Nat := s.length

/-- Modelled from the spec (textUtils is not under src/): `cpSlice(s, start, end?)`
is the substring by code-point indices, clamped; `end` defaults to the end. -/
def cpSlice (s : List Char) (start : Nat) (stop : Option Nat) : List Char :=
  match stop with
  | none => s.drop start
  | some e => (s.take e).drop start

/-- JavaScript `String.length`: number of UTF-16 code units. -/
def jsLen (s : List Char) : Nat :=
  (s.map (fun c => if c.toNat < 0x10000 then 1 else 2)).sum

/-- JavaScript's `\s` character class (used by `/[\s,.;!?]/` and `trim`). -/
def isJsSpace (c : Char) : Bool :=
  let n := c.toNat
  decide ((9 ≤ n ∧ n ≤ 13) ∨ n = 32 ∨ n = 0xA0 ∨ n = 0x1680 ∨
    (0x2000 ≤ n ∧ n ≤ 0x200A) ∨ n = 0x2028 ∨ n = 0x2029 ∨ n = 0x202F ∨
    n = 0x205F ∨ n = 0x3000 ∨ n = 0xFEFF)

/-- JavaScript `String.prototype.trim`. -/
def jsTrim (s : List Char) : List Char :=
  ((s.dropWhile isJsSpace).reverse.dropWhile isJsSpace).reverse

/-- `isWordChar` from the source: a defined character not matching `/[\s,.;!?]/`. -/
def isWordChar (c : Char) : Bool :=
  !(isJsSpace c || c == ',' || c == '.' || c == ';' || c == '!' || c == '?')

/-- `isWordChar(arr[i])` where an out-of-bounds index yields `undefined`,
for which the source returns `false`. -/
def isWordCharAt (arr : List Char) (i : Nat) : Bool :=
  match arr.get? i with
  | none => false
  | some c => isWordChar c

/-- `while (start > 0 && !isWordChar(arr[start - 1])) start--`. -/
def skipNonWordLeft (arr : List Char) : Nat → Nat
  | 0 => 0
  | n + 1 => if !(isWordCharAt arr n) then skipNonWordLeft arr n else n + 1

/-- `while (start > 0 && isWordChar(arr[start - 1])) start--`. -/
def skipWordLeft (arr : List Char) : Nat → Nat
  | 0 => 0
  | n + 1 => if isWordCharAt arr n then skipWordLeft arr n else n + 1

/-- `while (end < arr.length && !isWordChar(arr[end])) end++`. -/
def skipNonWordRight (arr : List Char) (e : Nat) : Nat :=
  if h : e < arr.length then
    if !(isWordCharAt arr e) then skipNonWordRight arr (e + 1) else e
  else e
termination_by arr.length - e

/-- `while (end < arr.length && isWordChar(arr[end])) end++`. -/
def skipWordRight (arr : List Char) (e : Nat) : Nat :=
  if h : e < arr.length then
    if isWordCharAt arr e then skipWordRight arr (e + 1) else e
  else e
termination_by arr.length - e

/-- Modelled from the external strip-ansi dependency: remove escape
sequences introduced by ESC (0x1B) or CSI (0x9B), skipping up to and
including the final byte (0x40-0x7E).  The flag says whether we are
currently inside a sequence. -/
def stripAnsiGo : Bool → List Char → List Char
  | _, [] => []
  | false, c :: rest =>
    if c.toNat = 0x1B ∨ c.toNat = 0x9B then stripAnsiGo true rest
    else c :: stripAnsiGo false rest
  | true, c :: rest =>
    if 0x40 ≤ c.toNat ∧ c.toNat ≤ 0x7E then stripAnsiGo false rest
    else stripAnsiGo true rest

/-- Modelled from the external strip-ansi dependency (see `stripAnsiGo`). -/
def stripAnsi (s : List Char) : List Char := stripAnsiGo false s

/-- `stripUnsafeCharacters` from the source: strip ANSI twice, then drop
astral code points (JS `char.length > 1`), code point 127, and control
characters other than `\n` (10) and `\r` (13). -/
def stripUnsafeCharacters (s : List Char) : List Char :=
  (stripAnsi (stripAnsi s)).filter fun c =>
    decide (c.toNat < 0x10000) &&
      !(decide (c.toNat = 127) ||
        (decide (c.toNat ≤ 31) && !(decide (c.toNat = 13)) && !(decide (c.toNat = 10))))

/-- JavaScript `.replace(/\r\n/g, '\n')`. -/
def replaceCRLF : List Char → List Char
  | '\r' :: '\n' :: rest => '\n' :: replaceCRLF rest
  | c :: rest => c :: replaceCRLF rest
  | [] => []

/-- JavaScript `.replace(/\r/g, '\n')`. -/
def replaceCR (s : List Char) : List Char :=
  s.map fun c => if c = '\r' then '\n' else c

/-- JavaScript `.replace(/\r\n?/g, '\n')` (used by SET_TEXT). -/
def normalizeCRLF : List Char → List Char
  | '\r' :: '\n' :: rest => '\n' :: normalizeCRLF rest
  | '\r' :: rest => '\n' :: normalizeCRLF rest
  | c :: rest => c :: normalizeCRLF rest
  | [] => []

/-- JavaScript `String.prototype.split('\n')`: always yields at least one
piece; a trailing separator yields a trailing empty piece. -/
def splitNl : List Char → List (List Char)
  | [] => [[]]
  | c :: rest =>
    let r := splitNl rest
    if c = '\n' then [] :: r
    else
      match r with
      | h :: t => (c :: h) :: t
      | [] => [[c]]

/-- `clamp(v, min, max)` from the source, at `Int`. -/
def clampI (v lo hi : Int) : Int :=
  if v < lo then lo else if hi < v then hi else v

/-- `clamp(v, min, max)` from the source, at `Nat`. -/
def clampNat (v lo hi : Nat) : Nat :=
  if v < lo then lo else if hi < v then hi else v

/-- JavaScript `arr.splice(i, 0, ...items)`: insert `items` at index `i`
(clamped to the length). -/
def insertAllAt {α : Type} (l : List α) (i : Nat) (items : List α) : List α :=
  l.take i ++ items ++ l.drop i

/-- JavaScript `arr.splice(i, cnt, ...items)`: replace `cnt` elements at
index `i` by `items`. -/
def spliceReplace {α : Type} (l : List α) (i cnt : Nat) (items : List α) : List α :=
  l.take i ++ items ++ l.drop (i + cnt)

/-- `offsetToLogicalPos` loop body: walk the lines accumulating the offset
of the start of the current line; `none` means the loop fell through. -/
def offsetToLogicalAux (offset : Nat) : List (List Char) → Nat → Nat → Option (Nat × Nat)
  | [], _, _ => none
  | line :: rest, i, currentOffset =>
    let lineLength := cpLen line
    let lineLengthWithNewline := lineLength + (if rest = [] then 0 else 1)
    if offset ≤ currentOffset + lineLength then some (i, offset - currentOffset)
    else if offset ≤ currentOffset + lineLengthWithNewline then
      if offset = currentOffset + lineLengthWithNewline ∧ rest ≠ [] then some (i + 1, 0)
      else some (i, lineLength)
    else offsetToLogicalAux offset rest (i + 1) (currentOffset + lineLengthWithNewline)

/-- `offsetToLogicalPos(text, offset)` from the source. -/
def offsetToLogicalPos (text : List Char) (offset : Nat) : Nat × Nat :=
  if offset = 0 then (0, 0)
  else
    let lines := splitNl text
    match offsetToLogicalAux offset lines 0 0 with
    | some p => p
    | none =>
      if 0 < lines.length then
        (lines.length - 1, cpLen (lines.getD (lines.length - 1) []))
      else (0, 0)

/-- Modelled from the spec: the piecewise description of
`offsetToLogical`.  `i` is the index of the first line in the remaining
list, and `offset` is relative to that line's start.  An offset within the
body of the line maps into it; an offset landing exactly on the separator
after a non-last line maps to the start of the next line; an offset
exceeding the total length maps to the end of the last line. -/
def offsetToLogicalSpecAux : Nat → Nat → List (List Char) → Nat × Nat
  | i, _, [] => (i, 0)
  | i, offset, [line] => if offset ≤ cpLen line then (i, offset) else (i, cpLen line)
  | i, offset, line :: rest =>
    if offset ≤ cpLen line then (i, offset)
    else if offset = cpLen line + 1 then (i + 1, 0)
    else offsetToLogicalSpecAux (i + 1) (offset - (cpLen line + 1)) rest

/-- Modelled from the spec: `offsetToLogical(text, offset)`. -/
def offsetToLogicalSpec (text : List Char) (offset : Nat) : Nat × Nat :=
  offsetToLogicalSpecAux 0 offset (splitNl text)

/-- The loop of `offsetToLogicalPos` together with its end-of-loop
fallback (cursor at the end of the last line), started at line index `i`
with accumulated offset `currentOffset`; used to relate the loop to its
spec by induction. -/
def offRun (offset : Nat) (ls : List (List Char)) (i currentOffset : Nat) : Nat × Nat :=
  match offsetToLogicalAux offset ls i currentOffset with
  | some p => p
  | none => (i + (ls.length - 1), cpLen (ls.getD (ls.length - 1) []))

/-!  Visual layouter (`calculateVisualLayout`).  The external string-width
dependency is modelled as a parameter `sw : Char → Nat` giving the terminal
cell width of each code point. -/

/-- Visual width of a chunk: sum of per-code-point widths. -/
def visualWidth (sw : Char → Nat) (s : List Char) : Nat := (s.map sw).sum

/-- The inner chunk-building loop of `calculateVisualLayout`: starting at
code-point index `start` of the logical line `cps`, accumulate characters
into `chunk` while the running width fits `viewportWidth`, remembering the
last space as a word-break opportunity (`brk` carries the space's index and
the number of code points before it).  Returns the chunk and its
code-point count. -/
def chunkLoop (sw : Char → Nat) (viewportWidth : Nat) (cps : List Char) (start : Nat) :
    List Char → Nat → List Char → Nat → Nat → Option (Nat × Nat) → List Char × Nat
  | [], _, chunk, _, num, _ => (chunk, num)
  | c :: rest, i, chunk, w, num, brk =>
    let charVisualWidth := sw c
    if viewportWidth < w + charVisualWidth then
      match brk with
      | some (_, nb) =>
        if 0 < nb ∧ start + nb < i then ((cps.drop start).take nb, nb)
        else if num = 0 ∧ viewportWidth < charVisualWidth then ([c], 1)
        else (chunk, num)
      | none =>
        if num = 0 ∧ viewportWidth < charVisualWidth then ([c], 1)
        else (chunk, num)
    else
      chunkLoop sw viewportWidth cps start rest (i + 1) (chunk ++ [c])
        (w + charVisualWidth) (num + 1) (if c = ' ' then some (i, num) else brk)

/-- One chunk of a visual line: the inner loop followed by the safety net
(`numCodePointsInChunk === 0 && currentPosInLogLine < length` forces taking
the single character at `start`). -/
def nextChunk (sw : Char → Nat) (viewportWidth : Nat) (cps : List Char) (start : Nat) :
    List Char × Nat :=
  if (chunkLoop sw viewportWidth cps start (cps.drop start) start [] 0 0 none).2 = 0 ∧
      start < cps.length then
    ((cps.drop start).take 1, 1)
  else chunkLoop sw viewportWidth cps start (cps.drop start) start [] 0 0 none

/-- The outer `while (currentPosInLogLine < length)` loop of the layouter
over one non-empty logical line: emit `(chunkStartCol, chunk)` pairs; after
each chunk, skip one following space that acted as the wrap delimiter. -/
def wrapLineChunks (sw : Char → Nat) (viewportWidth : Nat) (cps : List Char)
    (start : Nat) : List (Nat × List Char) :=
  if h : start < cps.length then
    (start, (nextChunk sw viewportWidth cps start).1) ::
      wrapLineChunks sw viewportWidth cps
        (if start + (nextChunk sw viewportWidth cps start).2 < cps.length ∧
            cps.getD (start + (nextChunk sw viewportWidth cps start).2) '\x00' = ' '
         then start + (nextChunk sw viewportWidth cps start).2 + 1
         else start + (nextChunk sw viewportWidth cps start).2)
  else []
termination_by cps.length - start
decreasing_by
  have hpos : 0 < (nextChunk sw viewportWidth cps start).2 := by
    unfold nextChunk
    split
    · exact Nat.one_pos
    · rename_i hc
      rcases Decidable.not_and_iff_or_not.mp hc with h1 | h2
      · omega
      · exact absurd h h2
  split <;> omega

/-- Result of `calculateVisualLayout`. -/
structure VisualLayout where
  visualLines : List (List Char)
  visualCursor : Nat × Nat
  logicalToVisualMap : List (List (Nat × Nat))
  visualToLogicalMap : List (Nat × Nat)
deriving DecidableEq

/-- Accumulator for the per-logical-line pass of `calculateVisualLayout`. -/
structure LayoutAcc where
  visualLines : List (List Char)
  logicalToVisualMap : List (List (Nat × Nat))
  visualToLogicalMap : List (Nat × Nat)
  visualCursor : Nat × Nat

/-- The cursor-mapping assignments performed while pushing the chunks of
logical line `logIndex` (whose first chunk has global visual row
`visBase`): a cursor inside a chunk maps into it; a cursor exactly at the
end of a non-empty chunk maps to its trailing end; later chunks
overwrite. -/
def cursorChunkFold (logicalCursor : Nat × Nat) (logIndex visBase : Nat)
    (chunks : List (Nat × List Char)) (cur0 : Nat × Nat) : Nat × Nat :=
  chunks.enum.foldl
    (fun cur kp =>
      let k := kp.1
      let startCol := kp.2.1
      let chunk := kp.2.2
      if logIndex = logicalCursor.1 then
        if startCol ≤ logicalCursor.2 ∧ logicalCursor.2 < startCol + chunk.length then
          (visBase + k, logicalCursor.2 - startCol)
        else if logicalCursor.2 = startCol + chunk.length ∧ 0 < chunk.length then
          (visBase + k, chunk.length)
        else cur
      else cur)
    cur0

/-- Process one logical line of `calculateVisualLayout`: append its visual
lines and map entries, and update the visual cursor (including the
cursor-at-end-of-logical-line fixup). -/
def layoutLineStep (sw : Char → Nat) (viewportWidth : Nat) (logicalCursor : Nat × Nat)
    (acc : LayoutAcc) (p : Nat × List Char) : LayoutAcc :=
  let logIndex := p.1
  let logLine := p.2
  let visBase := acc.visualLines.length
  if logLine.length = 0 then
    { visualLines := acc.visualLines ++ [[]],
      logicalToVisualMap := acc.logicalToVisualMap ++ [[(visBase, 0)]],
      visualToLogicalMap := acc.visualToLogicalMap ++ [(logIndex, 0)],
      visualCursor :=
        if logIndex = logicalCursor.1 ∧ logicalCursor.2 = 0 then (visBase, 0)
        else acc.visualCursor }
  else
    let chunks := wrapLineChunks sw viewportWidth logLine 0
    let cursor1 := cursorChunkFold logicalCursor logIndex visBase chunks acc.visualCursor
    let cursor2 :=
      if logIndex = logicalCursor.1 ∧ logicalCursor.2 = logLine.length then
        (visBase + chunks.length - 1, (chunks.getLastD (0, [])).2.length)
      else cursor1
    { visualLines := acc.visualLines ++ chunks.map (fun q => q.2),
      logicalToVisualMap := acc.logicalToVisualMap ++
        [chunks.enum.map (fun kq => (visBase + kq.1, kq.2.1))],
      visualToLogicalMap := acc.visualToLogicalMap ++ chunks.map (fun q => (logIndex, q.1)),
      visualCursor := cursor2 }

/-- `calculateVisualLayout(logicalLines, logicalCursor, viewportWidth)`
from the source, with the string-width function as parameter `sw`. -/
def calculateVisualLayout (sw : Char → Nat) (logicalLines : List (List Char))
    (logicalCursor : Nat × Nat) (viewportWidth : Nat) : VisualLayout :=
  let acc := logicalLines.enum.foldl (layoutLineStep sw viewportWidth logicalCursor)
    ⟨[], [], [], (0, 0)⟩
  if logicalLines.length = 0 ∨
      (logicalLines.length = 1 ∧ logicalLines.getD 0 [] = []) then
    if acc.visualLines.length = 0 then
      ⟨acc.visualLines ++ [[]], (0, 0),
        (if acc.logicalToVisualMap = [] then [[]] else acc.logicalToVisualMap).set 0
          (((if acc.logicalToVisualMap = [] then [[]] else acc.logicalToVisualMap).getD 0 [])
            ++ [(0, 0)]),
        acc.visualToLogicalMap ++ [(0, 0)]⟩
    else
      ⟨acc.visualLines, (0, 0), acc.logicalToVisualMap, acc.visualToLogicalMap⟩
  else if logicalCursor.1 = logicalLines.length - 1 ∧
      logicalCursor.2 = cpLen (logicalLines.getD (logicalLines.length - 1) []) ∧
      0 < acc.visualLines.length then
    ⟨acc.visualLines,
      (acc.visualLines.length - 1, cpLen (acc.visualLines.getLastD [])),
      acc.logicalToVisualMap, acc.visualToLogicalMap⟩
  else
    ⟨acc.visualLines, acc.visualCursor, acc.logicalToVisualMap, acc.visualToLogicalMap⟩

/-!  Edit engine: `TextBufferState`, actions, and `textBufferReducer`. -/

/-- `UndoHistoryEntry` from the source. -/
structure UndoHistoryEntry where
  lines : List (List Char)
  cursorRow : Nat
  cursorCol : Nat
deriving DecidableEq

/-- `TextBufferState` from the source. -/
structure TextBufferState where
  lines : List (List Char)
  cursorRow : Nat
  cursorCol : Nat
  preferredCol : Option Nat
  undoStack : List UndoHistoryEntry
  redoStack : List UndoHistoryEntry
  clipboard : Option (List Char)
  selectionAnchor : Option (Nat × Nat)
deriving DecidableEq

/-- `UpdateOperation` from the source. -/
inductive UpdateOperation where
  | insert (payload : List Char)
  | backspace
deriving DecidableEq

/-- `Direction` from the source (`end` is a Lean keyword, hence `end_`). -/
inductive Direction where
  | left
  | right
  | up
  | down
  | wordLeft
  | wordRight
  | home
  | end_
deriving DecidableEq

/-- `TextBufferAction` from the source.  `SET_TEXT`'s optional `pushToUndo`
is `Option Bool` (`none` = absent); `REPLACE_RANGE` coordinates are `Int`
as in JavaScript, where the reducer checks them for negativity. -/
inductive TextBufferAction where
  | SET_TEXT (payload : List Char) (pushToUndo : Option Bool)
  | APPLY_OPERATIONS (payload : List UpdateOperation)
  | MOVE (dir : Direction) (visualLayout : VisualLayout)
  | DELETE
  | DELETE_WORD_LEFT
  | DELETE_WORD_RIGHT
  | KILL_LINE_RIGHT
  | KILL_LINE_LEFT
  | UNDO
  | REDO
  | REPLACE_RANGE (startRow startCol endRow endCol : Int) (text : List Char)
  | MOVE_TO_OFFSET (text : List Char) (offset : Nat)
  | COPY
  | PASTE
  | START_SELECTION
deriving DecidableEq

/-- `historyLimit` from the source. -/
def historyLimit : Nat := 100

/-- The `{lines, cursorRow, cursorCol}` snapshot taken by `pushUndo`. -/
def snapshotOf (s : TextBufferState) : UndoHistoryEntry :=
  ⟨s.lines, s.cursorRow, s.cursorCol⟩

/-- The undo stack produced by `pushUndo`: append the snapshot, dropping
the oldest entry when the limit is exceeded (`newStack.shift()`). -/
def pushUndoStack (stack : List UndoHistoryEntry) (snapshot : UndoHistoryEntry) :
    List UndoHistoryEntry :=
  if historyLimit < (stack ++ [snapshot]).length then (stack ++ [snapshot]).tail
  else stack ++ [snapshot]

/-- `pushUndo` from the source: snapshot the state onto the undo stack and
clear the redo stack. -/
def pushUndo (currentState : TextBufferState) : TextBufferState :=
  { currentState with
    undoStack := pushUndoStack currentState.undoStack (snapshotOf currentState),
    redoStack := [] }

/-- `currentLine(r)` from the source: `state.lines[r] ?? ''`. -/
def currentLine (s : TextBufferState) (r : Nat) : List Char := s.lines.getD r []

/-- `currentLineLen(r)` from the source. -/
def currentLineLen (s : TextBufferState) (r : Nat) : Nat := cpLen (currentLine s r)

/-- `state.lines[r] ?? ''` at a JavaScript (possibly negative) index. -/
def currentLineI (s : TextBufferState) (r : Int) : List Char :=
  if r < 0 then [] else s.lines.getD r.toNat []

/-- `currentLineLen` at a JavaScript (possibly negative) index. -/
def currentLineLenI (s : TextBufferState) (r : Int) : Int :=
  (currentLineI s r).length

/-- The REPLACE_RANGE validity guard from the source (`return state` when
it holds).  Note it never compares `startCol` against the start line's
length. -/
def replaceRangeInvalid (s : TextBufferState) (startRow startCol endRow endCol : Int) :
    Prop :=
  startRow > endRow ∨ (startRow = endRow ∧ startCol > endCol) ∨
  startRow < 0 ∨ startCol < 0 ∨ (s.lines.length : Int) ≤ endRow ∨
  (endRow < (s.lines.length : Int) ∧ currentLineLenI s endRow < endCol)

instance (s : TextBufferState) (a b c d : Int) :
    Decidable (replaceRangeInvalid s a b c d) := by
  unfold replaceRangeInvalid; infer_instance

/-- The `insert`-expansion loop of APPLY_OPERATIONS: split an insert
payload at code point 127, emitting accumulated text as `insert`
operations and each 127 as an explicit `backspace`. -/
def expandInsertGo : List Char → List Char → List UpdateOperation
  | [], acc => if acc ≠ [] then [.insert acc] else []
  | c :: rest, acc =>
    if c.toNat = 127 then
      (if acc ≠ [] then [.insert acc] else []) ++ .backspace :: expandInsertGo rest []
    else expandInsertGo rest (acc ++ [c])

/-- The full operation expansion of APPLY_OPERATIONS. -/
def expandOps (ops : List UpdateOperation) : List UpdateOperation :=
  (ops.map fun op =>
    match op with
    | .insert p => expandInsertGo p []
    | .backspace => [.backspace]).flatten

/-- One iteration of the APPLY_OPERATIONS loop over the expanded
operations, acting on `(newLines, newCursorRow, newCursorCol)`. -/
def applyOperation (st : List (List Char) × Nat × Nat) (op : UpdateOperation) :
    List (List Char) × Nat × Nat :=
  let newLines := st.1
  let row := st.2.1
  let col := st.2.2
  match op with
  | .insert payload =>
    let str0 := stripUnsafeCharacters (replaceCR (replaceCRLF payload))
    let parts := splitNl str0
    let lineContent := newLines.getD row []
    let before := cpSlice lineContent 0 (some col)
    let after := cpSlice lineContent col none
    if 1 < parts.length then
      let lastPartOriginal := (parts.drop 1).getLastD []
      let remainingParts := (parts.drop 1).dropLast
      let lines1 := newLines.set row (before ++ parts.getD 0 [])
      let lines2 := insertAllAt lines1 (row + 1) remainingParts
      let lines3 := insertAllAt lines2 (row + parts.length - 1) [lastPartOriginal ++ after]
      (lines3, row + parts.length - 1, cpLen lastPartOriginal)
    else
      (newLines.set row (before ++ parts.getD 0 [] ++ after), row,
        cpLen before + cpLen (parts.getD 0 []))
  | .backspace =>
    if col = 0 ∧ row = 0 then st
    else if 0 < col then
      let lineContent := newLines.getD row []
      (newLines.set row (cpSlice lineContent 0 (some (col - 1)) ++ cpSlice lineContent col none),
        row, col - 1)
    else if 0 < row then
      let prevLineContent := newLines.getD (row - 1) []
      let currentLineContentVal := newLines.getD row []
      let newCol := cpLen prevLineContent
      ((newLines.set (row - 1) (prevLineContent ++ currentLineContentVal)).eraseIdx row,
        row - 1, newCol)
    else st

/-- `textBufferReducer(state, action)` from the source. -/
def textBufferReducer (state : TextBufferState) (action : TextBufferAction) :
    TextBufferState :=
  match action with
  | .SET_TEXT payload pushToUndoFlag =>
    let nextState := if pushToUndoFlag ≠ some false then pushUndo state else state
    let newContentLines := splitNl (normalizeCRLF payload)
    let lines := if newContentLines.length = 0 then [[]] else newContentLines
    let lastNewLineIndex := lines.length - 1
    { nextState with
      lines := lines,
      cursorRow := lastNewLineIndex,
      cursorCol := cpLen (lines.getD lastNewLineIndex []),
      preferredCol := none }
  | .APPLY_OPERATIONS payload =>
    if payload = [] then state
    else
      let expandedOps := expandOps payload
      if expandedOps = [] then state
      else
        let nextState := pushUndo state
        let r := expandedOps.foldl applyOperation
          (nextState.lines, nextState.cursorRow, nextState.cursorCol)
        { nextState with
          lines := r.1, cursorRow := r.2.1, cursorCol := r.2.2, preferredCol := none }
  | .MOVE dir visualLayout =>
    let visualLines := visualLayout.visualLines
    let visualCursor := visualLayout.visualCursor
    let currentVisLineLen := cpLen (visualLines.getD visualCursor.1 [])
    let moved : Nat × Nat × Option Nat :=
      match dir with
      | .left =>
        if 0 < visualCursor.2 then (visualCursor.1, visualCursor.2 - 1, none)
        else if 0 < visualCursor.1 then
          (visualCursor.1 - 1, cpLen (visualLines.getD (visualCursor.1 - 1) []), none)
        else (visualCursor.1, visualCursor.2, none)
      | .right =>
        if visualCursor.2 < currentVisLineLen then (visualCursor.1, visualCursor.2 + 1, none)
        else if visualCursor.1 < visualLines.length - 1 then (visualCursor.1 + 1, 0, none)
        else (visualCursor.1, visualCursor.2, none)
      | .up =>
        if 0 < visualCursor.1 then
          let pc := match state.preferredCol with
            | none => visualCursor.2
            | some p => p
          (visualCursor.1 - 1,
            clampNat pc 0 (cpLen (visualLines.getD (visualCursor.1 - 1) [])), some pc)
        else (visualCursor.1, visualCursor.2, state.preferredCol)
      | .down =>
        if visualCursor.1 < visualLines.length - 1 then
          let pc := match state.preferredCol with
            | none => visualCursor.2
            | some p => p
          (visualCursor.1 + 1,
            clampNat pc 0 (cpLen (visualLines.getD (visualCursor.1 + 1) [])), some pc)
        else (visualCursor.1, visualCursor.2, state.preferredCol)
      | .home => (visualCursor.1, 0, none)
      | .end_ => (visualCursor.1, currentVisLineLen, none)
      | _ => (visualCursor.1, visualCursor.2, state.preferredCol)
    match visualLayout.visualToLogicalMap.get? moved.1 with
    | some lp =>
      { state with
        cursorRow := lp.1,
        cursorCol := clampNat (lp.2 + moved.2.1) 0 (cpLen (state.lines.getD lp.1 [])),
        preferredCol := moved.2.2 }
    | none => state
  | .DELETE =>
    let lineContent := currentLine state state.cursorRow
    if state.cursorCol < currentLineLen state state.cursorRow then
      let nextState := pushUndo state
      { nextState with
        lines := nextState.lines.set state.cursorRow
          (cpSlice lineContent 0 (some state.cursorCol) ++
            cpSlice lineContent (state.cursorCol + 1) none),
        preferredCol := none }
    else if state.cursorRow < state.lines.length - 1 then
      let nextState := pushUndo state
      let nextLineContent := currentLine state (state.cursorRow + 1)
      { nextState with
        lines := (nextState.lines.set state.cursorRow
          (lineContent ++ nextLineContent)).eraseIdx (state.cursorRow + 1),
        preferredCol := none }
    else state
  | .DELETE_WORD_LEFT =>
    if state.cursorCol = 0 ∧ state.cursorRow = 0 then state
    else if state.cursorCol = 0 then
      let nextState := pushUndo state
      let prevLineContent := currentLine state (state.cursorRow - 1)
      let currentLineContentVal := currentLine state state.cursorRow
      let newCol := cpLen prevLineContent
      { nextState with
        lines := (nextState.lines.set (state.cursorRow - 1)
          (prevLineContent ++ currentLineContentVal)).eraseIdx state.cursorRow,
        cursorRow := state.cursorRow - 1,
        cursorCol := newCol,
        preferredCol := none }
    else
      let nextState := pushUndo state
      let lineContent := currentLine state state.cursorRow
      let onlySpaces := !((List.range state.cursorCol).any fun i => isWordCharAt lineContent i)
      let start :=
        if onlySpaces ∧ 0 < state.cursorCol then state.cursorCol - 1
        else skipWordLeft lineContent (skipNonWordLeft lineContent state.cursorCol)
      { nextState with
        lines := nextState.lines.set state.cursorRow
          (cpSlice lineContent 0 (some start) ++ cpSlice lineContent state.cursorCol none),
        cursorCol := start,
        preferredCol := none }
  | .DELETE_WORD_RIGHT =>
    let lineContent := currentLine state state.cursorRow
    if lineContent.length ≤ state.cursorCol ∧ state.cursorRow = state.lines.length - 1 then
      state
    else if lineContent.length ≤ state.cursorCol then
      let nextState := pushUndo state
      let nextLineContent := currentLine state (state.cursorRow + 1)
      { nextState with
        lines := (nextState.lines.set state.cursorRow
          (lineContent ++ nextLineContent)).eraseIdx (state.cursorRow + 1),
        preferredCol := none }
    else
      let nextState := pushUndo state
      let stop := skipWordRight lineContent (skipNonWordRight lineContent state.cursorCol)
      { nextState with
        lines := nextState.lines.set state.cursorRow
          (cpSlice lineContent 0 (some state.cursorCol) ++ cpSlice lineContent stop none),
        preferredCol := none }
  | .KILL_LINE_RIGHT =>
    let lineContent := currentLine state state.cursorRow
    if state.cursorCol < currentLineLen state state.cursorRow then
      let nextState := pushUndo state
      { nextState with
        lines := nextState.lines.set state.cursorRow
          (cpSlice lineContent 0 (some state.cursorCol)) }
    else if state.cursorRow < state.lines.length - 1 then
      let nextState := pushUndo state
      let nextLineContent := currentLine state (state.cursorRow + 1)
      { nextState with
        lines := (nextState.lines.set state.cursorRow
          (lineContent ++ nextLineContent)).eraseIdx (state.cursorRow + 1),
        preferredCol := none }
    else state
  | .KILL_LINE_LEFT =>
    if 0 < state.cursorCol then
      let nextState := pushUndo state
      let lineContent := currentLine state state.cursorRow
      { nextState with
        lines := nextState.lines.set state.cursorRow
          (cpSlice lineContent state.cursorCol none),
        cursorCol := 0,
        preferredCol := none }
    else state
  | .UNDO =>
    match state.undoStack.getLast? with
    | none => state
    | some stateToRestore =>
      { state with
        lines := stateToRestore.lines,
        cursorRow := stateToRestore.cursorRow,
        cursorCol := stateToRestore.cursorCol,
        undoStack := state.undoStack.dropLast,
        redoStack := state.redoStack ++ [snapshotOf state] }
  | .REDO =>
    match state.redoStack.getLast? with
    | none => state
    | some stateToRestore =>
      { state with
        lines := stateToRestore.lines,
        cursorRow := stateToRestore.cursorRow,
        cursorCol := stateToRestore.cursorCol,
        redoStack := state.redoStack.dropLast,
        undoStack := state.undoStack ++ [snapshotOf state] }
  | .REPLACE_RANGE startRow startCol endRow endCol text =>
    if replaceRangeInvalid state startRow startCol endRow endCol then state
    else
      let nextState := pushUndo state
      let sRow := startRow.toNat
      let eRow := endRow.toNat
      let sCol := (clampI startCol 0 (currentLineLenI state startRow)).toNat
      let eCol := (clampI endCol 0 (currentLineLenI state endRow)).toNat
      let preText := cpSlice (currentLine state sRow) 0 (some sCol)
      let sufText := cpSlice (currentLine state eRow) eCol none
      let normalisedReplacement := replaceCR (replaceCRLF text)
      let replacementParts := splitNl normalisedReplacement
      let newLines :=
        if startRow = endRow then
          nextState.lines.set sRow (preText ++ normalisedReplacement ++ sufText)
        else
          let firstLine := preText ++ replacementParts.getD 0 []
          if replacementParts.length = 1 then
            spliceReplace nextState.lines sRow (eRow - sRow + 1) [firstLine ++ sufText]
          else
            let lastLine := replacementParts.getLastD [] ++ sufText
            let middleLines := (replacementParts.drop 1).dropLast
            spliceReplace nextState.lines sRow (eRow - sRow + 1)
              (firstLine :: middleLines ++ [lastLine])
      { nextState with
        lines := newLines,
        cursorRow := sRow + (replacementParts.length - 1),
        cursorCol := (if 1 < replacementParts.length then 0 else sCol) +
          cpLen (replacementParts.getLastD []),
        preferredCol := none }
  | .MOVE_TO_OFFSET text offset =>
    let p := offsetToLogicalPos text offset
    { state with cursorRow := p.1, cursorCol := p.2, preferredCol := none }
  | .COPY =>
    match state.selectionAnchor with
    | none => state
    | some anchor =>
      let ar := anchor.1
      let ac := anchor.2
      let br := state.cursorRow
      let bc := state.cursorCol
      if ar = br ∧ ac = bc then state
      else
        let topBefore := ar < br ∨ (ar = br ∧ ac < bc)
        let sr := if topBefore then ar else br
        let sc := if topBefore then ac else bc
        let er := if topBefore then br else ar
        let ec := if topBefore then bc else ac
        let selectedTextVal :=
          if sr = er then cpSlice (currentLine state sr) sc (some ec)
          else
            List.intercalate ['\n']
              (cpSlice (currentLine state sr) sc none ::
                ((List.range' (sr + 1) (er - (sr + 1))).map fun r => currentLine state r) ++
                [cpSlice (currentLine state er) 0 (some ec)])
        { state with clipboard := some selectedTextVal }
  | .PASTE =>
    match state.clipboard with
    | none => state
    | some clip =>
      let nextState := pushUndo state
      let lineContent := currentLine state nextState.cursorRow
      let before := cpSlice lineContent 0 (some nextState.cursorCol)
      let after := cpSlice lineContent nextState.cursorCol none
      let pasteContent := stripUnsafeCharacters (replaceCR (replaceCRLF clip))
      let parts := splitNl pasteContent
      if 1 < parts.length then
        let lastPartOriginal := (parts.drop 1).getLastD []
        let remainingParts := (parts.drop 1).dropLast
        let lines1 := nextState.lines.set nextState.cursorRow (before ++ parts.getD 0 [])
        let lines2 := insertAllAt lines1 (nextState.cursorRow + 1) remainingParts
        let lines3 := insertAllAt lines2 (nextState.cursorRow + parts.length - 1)
          [lastPartOriginal ++ after]
        { nextState with
          lines := lines3,
          cursorRow := nextState.cursorRow + parts.length - 1,
          cursorCol := cpLen lastPartOriginal,
          preferredCol := none }
      else
        { nextState with
          lines := nextState.lines.set nextState.cursorRow
            (before ++ parts.getD 0 [] ++ after),
          cursorCol := cpLen before + cpLen (parts.getD 0 []),
          preferredCol := none }
  | .START_SELECTION =>
    { state with selectionAnchor := some (state.cursorRow, state.cursorCol) }

/-!  Controller (`useTextBuffer` closures): derived text, `insert`,
`handleInput`, `replaceRange`. -/

/-- The derived `text`: `lines.join('\n')`. -/
def bufferText (s : TextBufferState) : List Char :=
  List.intercalate ['\n'] s.lines

/-- The `insert` command from the source.  A payload containing a newline
or carriage return is dispatched directly; otherwise it is stripped of
unsafe characters and, when long enough, checked against the host's
`isValidPath` predicate (after optionally removing a surrounding pair of
single quotes, trimming, and applying the host's `unescapePath`), in which
case `@` is prepended. -/
def insertCmd (isValidPath : List Char → Bool) (unescapePath : List Char → List Char)
    (s : TextBufferState) (chInput : List Char) : TextBufferState :=
  if chInput.any (fun c => c == '\n' || c == '\r') then
    textBufferReducer s (.APPLY_OPERATIONS [.insert chInput])
  else
    let ch := stripUnsafeCharacters chInput
    let minLengthToInferAsDragDrop := 3
    let ch2 :=
      if minLengthToInferAsDragDrop ≤ jsLen ch then
        let potentialPath :=
          if 2 < jsLen ch ∧ ch.head? = some '\'' ∧ ch.getLast? = some '\'' then
            (ch.drop 1).dropLast
          else ch
        let potentialPath2 := jsTrim potentialPath
        if isValidPath (unescapePath potentialPath2) then '@' :: potentialPath2 else ch
      else ch
    textBufferReducer s (.APPLY_OPERATIONS [.insert ch2])

/-- The key record received by `handleInput`. -/
structure Key where
  name : List Char
  ctrl : Bool
  meta : Bool
  shift : Bool
  paste : Bool
  sequence : List Char
deriving DecidableEq

/-- `handleInput` from the source.  It captures `text`, `cursorRow` and
`cursorCol` from the React render closure, dispatches the matching action,
and then compares the *same closure values* against the captured
`beforeText`/`beforeCursor` (React state does not change within the call),
so `textChanged`/`cursorChanged` compare each value with itself.  The
returned state is the one produced by the dispatched action; the returned
`Bool` is the source's return value. -/
def handleInput (sw : Char → Nat) (viewportWidth : Nat)
    (isValidPath : List Char → Bool) (unescapePath : List Char → List Char)
    (s : TextBufferState) (key : Key) : TextBufferState × Bool :=
  let input := key.sequence
  let beforeText := bufferText s
  let beforeCursor := (s.cursorRow, s.cursorCol)
  if key.name = str "escape" then (s, false)
  else
    let visualLayout :=
      calculateVisualLayout sw s.lines (s.cursorRow, s.cursorCol) viewportWidth
    let s2 :=
      if key.name = str "return" ∨ input = str "\r" ∨ input = str "\n" then
        textBufferReducer s (.APPLY_OPERATIONS [.insert (str "\n")])
      else if key.name = str "left" ∧ key.meta = false ∧ key.ctrl = false then
        textBufferReducer s (.MOVE .left visualLayout)
      else if key.name = str "right" ∧ key.meta = false ∧ key.ctrl = false then
        textBufferReducer s (.MOVE .right visualLayout)
      else if key.name = str "up" then
        textBufferReducer s (.MOVE .up visualLayout)
      else if key.name = str "down" then
        textBufferReducer s (.MOVE .down visualLayout)
      else if key.name = str "home" then
        textBufferReducer s (.MOVE .home visualLayout)
      else if key.name = str "end" then
        textBufferReducer s (.MOVE .end_ visualLayout)
      else if key.name = str "backspace" ∨ input = str "\x7f" then
        if s.cursorCol = 0 ∧ s.cursorRow = 0 then s
        else textBufferReducer s (.APPLY_OPERATIONS [.backspace])
      else if key.name = str "delete" ∨ (key.ctrl = true ∧ key.name = str "d") then
        textBufferReducer s .DELETE
      else if input ≠ [] ∧ key.ctrl = false ∧ key.meta = false then
        insertCmd isValidPath unescapePath s input
      else s
    let textChanged : Bool := bufferText s != beforeText
    let cursorChanged : Bool :=
      (s.cursorRow != beforeCursor.1) || (s.cursorCol != beforeCursor.2)
    (s2, textChanged || cursorChanged)

/-- The public `replaceRange` callback: re-checks the same guard as the
reducer and only dispatches when it passes, returning whether it
dispatched. -/
def replaceRangeCmd (s : TextBufferState) (startRow startCol endRow endCol : Int)
    (text : List Char) : TextBufferState × Bool :=
  if replaceRangeInvalid s startRow startCol endRow endCol then (s, false)
  else (textBufferReducer s (.REPLACE_RANGE startRow startCol endRow endCol text), true)

/-- A valid buffer state as described by the spec's invariant: `lines`
non-empty, `cursorRow` in `[0, lines.length)`, `cursorCol` in
`[0, cpLen(lines[cursorRow])]`. -/
def validState (s : TextBufferState) : Prop :=
  s.lines ≠ [] ∧ s.cursorRow < s.lines.length ∧
    s.cursorCol ≤ cpLen (s.lines.getD s.cursorRow [])

instance (s : TextBufferState) : Decidable (validState s) := by
  unfold validState; infer_instance

/-- The empty buffer: one empty line, cursor at the origin, empty history. -/
def emptyBufferState : TextBufferState :=
  ⟨[[]], 0, 0, none, [], [], none, none⟩

/-- The mutating actions that push an undo snapshot before any change:
every mutating action except `SET_TEXT` invoked with `pushToUndo: false`. -/
def mutatingPushesUndo : TextBufferAction → Bool
  | .SET_TEXT _ p => p != some false
  | .APPLY_OPERATIONS _ => true
  | .DELETE => true
  | .DELETE_WORD_LEFT => true
  | .DELETE_WORD_RIGHT => true
  | .KILL_LINE_RIGHT => true
  | .KILL_LINE_LEFT => true
  | .PASTE => true
  | .REPLACE_RANGE _ _ _ _ _ => true
  | _ => false

/-!  Theorems. -/

/-- C1: REPLACE_RANGE with multi-line replacement text on a single-row
range violates the cursor-validity invariant.  From the valid empty buffer,
`REPLACE_RANGE(0,0,0,0,"a\nb")` leaves a single line (containing an
embedded newline) yet sets `cursorRow = 1`, which is out of bounds; so the
invariant "after every action the cursor is a valid position" fails on the
code. -/
theorem C1_replaceRange_breaks_invariant :
    validState emptyBufferState ∧
    (textBufferReducer emptyBufferState
      (.REPLACE_RANGE 0 0 0 0 (str "a\nb"))).lines.length = 1 ∧
    (textBufferReducer emptyBufferState
      (.REPLACE_RANGE 0 0 0 0 (str "a\nb"))).cursorRow = 1 ∧
    ¬ validState (textBufferReducer emptyBufferState
      (.REPLACE_RANGE 0 0 0 0 (str "a\nb"))) := by decide

/-- C2 counterexample: `SET_TEXT` with `pushToUndo: false` is a mutating
action that changes the state, yet UNDO afterwards does not restore the
original lines; so the claim quantified over every `SET_TEXT` payload
fails. -/
theorem C2_counterexample_setText_noPush :
    textBufferReducer ⟨[str "x"], 0, 1, none, [], [], none, none⟩
        (.SET_TEXT (str "y") (some false)) ≠
      ⟨[str "x"], 0, 1, none, [], [], none, none⟩ ∧
    (textBufferReducer
        (textBufferReducer ⟨[str "x"], 0, 1, none, [], [], none, none⟩
          (.SET_TEXT (str "y") (some false))) .UNDO).lines ≠
      [str "x"] := by decide

/-- C3 counterexample: with `lines = ["a", "bb"]`, the range
`(0,5)-(1,0)` has `startCol = 5` exceeding `cpLen(lines[0]) = 1` while
everything else is in bounds, i.e. the claimed "startCol within its line's
length" check fails — yet REPLACE_RANGE does not return the state
unchanged: the guard never compares `startCol` with its line's length. -/
theorem C3_counterexample_startCol :
    (5 : Int) > currentLineLenI ⟨[str "a", str "bb"], 0, 0, none, [], [], none, none⟩ 0 ∧
    textBufferReducer ⟨[str "a", str "bb"], 0, 0, none, [], [], none, none⟩
        (.REPLACE_RANGE 0 5 1 0 (str "x")) ≠
      ⟨[str "a", str "bb"], 0, 0, none, [], [], none, none⟩ := by decide

/-- C3 (amended): REPLACE_RANGE validates `(startRow,startCol) ≤
(endRow,endCol)`, `startRow ≥ 0`, `startCol ≥ 0`, `endRow <
lines.length`, and `endCol ≤ cpLen(lines[endRow])` — but not `startCol`
against its own line's length (that value is only clamped) — and whenever
this guard fails the returned state equals the input state unchanged. -/
theorem C3_invalid_range_is_noop (s : TextBufferState)
    (startRow startCol endRow endCol : Int) (text : List Char)
    (h : replaceRangeInvalid s startRow startCol endRow endCol) :
    textBufferReducer s (.REPLACE_RANGE startRow startCol endRow endCol text) = s := by
  simp only [textBufferReducer, if_pos h]

/-- C3 witness: a concrete invalid range (startRow > endRow) is rejected
unchanged. -/
theorem C3_invalid_range_is_noop_witness :
    replaceRangeInvalid emptyBufferState 1 0 0 0 ∧
    textBufferReducer emptyBufferState (.REPLACE_RANGE 1 0 0 0 (str "z")) =
      emptyBufferState :=
  ⟨by decide, C3_invalid_range_is_noop emptyBufferState 1 0 0 0 (str "z") (by decide)⟩

/-- C4 counterexample: `insert("a\x7Fb")` on the empty buffer does not
produce `lines = ["b"]`: the public `insert` strips code point 0x7F via
`stripUnsafeCharacters` before dispatching, so the APPLY_OPERATIONS
backspace expansion never sees it. -/
theorem C4_counterexample_insert_del :
    (insertCmd (fun _ => false) (fun p => p) emptyBufferState (str "a\x7fb")).lines ≠
      [str "b"] := by decide

/-- C4 (amended): `insert("a\x7Fb")` with cursor `(0,0)` on the empty
buffer (with `isValidPath` false) strips the 0x7F before dispatching,
producing `lines = ["ab"]` with cursor `(0,2)`, and a single undo reverts
the whole operation back to the empty buffer. -/
theorem C4_insert_del_strips :
    (insertCmd (fun _ => false) (fun p => p) emptyBufferState (str "a\x7fb")).lines =
      [str "ab"] ∧
    (insertCmd (fun _ => false) (fun p => p) emptyBufferState (str "a\x7fb")).cursorRow = 0 ∧
    (insertCmd (fun _ => false) (fun p => p) emptyBufferState (str "a\x7fb")).cursorCol = 2 ∧
    (textBufferReducer
        (insertCmd (fun _ => false) (fun p => p) emptyBufferState (str "a\x7fb"))
        .UNDO).lines = [[]] ∧
    (textBufferReducer
        (insertCmd (fun _ => false) (fun p => p) emptyBufferState (str "a\x7fb"))
        .UNDO).cursorRow = 0 ∧
    (textBufferReducer
        (insertCmd (fun _ => false) (fun p => p) emptyBufferState (str "a\x7fb"))
        .UNDO).cursorCol = 0 := by decide

/-- C5: `handleInput` on a printable key does change the buffer (here the
key `a` inserted into the empty buffer yields `lines = ["a"]`), yet it
returns `false`: the source compares the React closure's `text` and
cursor — unchanged within the call — against `beforeText`/`beforeCursor`
captured from the same closure, so the result is `false` for every key. -/
theorem C5_handleInput_returns_false_on_change :
    (handleInput (fun _ => 1) 80 (fun _ => false) (fun p => p) emptyBufferState
        ⟨str "a", false, false, false, false, str "a"⟩).1.lines = [str "a"] ∧
    (handleInput (fun _ => 1) 80 (fun _ => false) (fun p => p) emptyBufferState
        ⟨str "a", false, false, false, false, str "a"⟩).1.lines ≠
      emptyBufferState.lines ∧
    (handleInput (fun _ => 1) 80 (fun _ => false) (fun p => p) emptyBufferState
        ⟨str "a", false, false, false, false, str "a"⟩).2 = false := by decide

/-- C6 counterexample: APPLY_OPERATIONS with a single backspace at
`(0,0)` does not silently return the current state: an undo snapshot is
pushed (and the redo stack is cleared). -/
theorem C6_counterexample_backspace_origin :
    (textBufferReducer emptyBufferState (.APPLY_OPERATIONS [.backspace])).undoStack ≠
      emptyBufferState.undoStack := by decide

/-- C7 counterexample: with `preferredCol = some 3` and the cursor
strictly before the end of its line, KILL_LINE_RIGHT leaves
`preferredCol` set instead of clearing it. -/
theorem C7_counterexample_preferredCol :
    (textBufferReducer ⟨[str "abc"], 0, 1, some 3, [], [], none, none⟩
        .KILL_LINE_RIGHT).preferredCol ≠ none := by decide

/-- C7 (amended): for every state whose cursor is strictly before the end
of its line, KILL_LINE_RIGHT deletes from the cursor to the end of the
line (leaving the cursor in place) and pushes an undo snapshot, but leaves
`preferredCol` unchanged rather than clearing it (unlike the end-of-line
join branch). -/
theorem C7_killLineRight_keeps_preferredCol (s : TextBufferState)
    (h : s.cursorCol < currentLineLen s s.cursorRow) :
    textBufferReducer s .KILL_LINE_RIGHT =
      { pushUndo s with
        lines := s.lines.set s.cursorRow
          (cpSlice (currentLine s s.cursorRow) 0 (some s.cursorCol)) } ∧
    (textBufferReducer s .KILL_LINE_RIGHT).preferredCol = s.preferredCol := by
  constructor
  · simp only [textBufferReducer, if_pos h]
    rfl
  · simp only [textBufferReducer, if_pos h]
    rfl

/-- C7 witness: a concrete instance of the amended KILL_LINE_RIGHT
behaviour. -/
theorem C7_killLineRight_keeps_preferredCol_witness :
    (⟨[str "abc"], 0, 1, some 3, [], [], none, none⟩ :
        TextBufferState).cursorCol <
      currentLineLen ⟨[str "abc"], 0, 1, some 3, [], [], none, none⟩ 0 ∧
    (textBufferReducer ⟨[str "abc"], 0, 1, some 3, [], [], none, none⟩
        .KILL_LINE_RIGHT =
      { pushUndo ⟨[str "abc"], 0, 1, some 3, [], [], none, none⟩ with
        lines := [str "abc"].set 0 (cpSlice (str "abc") 0 (some 1)) } ∧
    (textBufferReducer ⟨[str "abc"], 0, 1, some 3, [], [], none, none⟩
        .KILL_LINE_RIGHT).preferredCol = some 3) :=
  ⟨by decide,
    C7_killLineRight_keeps_preferredCol ⟨[str "abc"], 0, 1, some 3, [], [], none, none⟩
      (by decide)⟩

/-- C6 (amended): applying APPLY_OPERATIONS with a single backspace at
cursor `(0,0)` leaves `lines`, `cursorRow` and `cursorCol` unchanged, but
it does push an undo snapshot, clear the redo stack, and clear
`preferredCol` (it is not a silent no-op). -/
theorem C6_backspace_origin_pushes (s : TextBufferState)
    (h1 : s.cursorRow = 0) (h2 : s.cursorCol = 0) :
    textBufferReducer s (.APPLY_OPERATIONS [.backspace]) =
      { s with undoStack := pushUndoStack s.undoStack (snapshotOf s),
               redoStack := [], preferredCol := none } := by
  simp only [textBufferReducer, expandOps, expandInsertGo, List.map, List.flatten,
    List.foldl, applyOperation, pushUndo]
  simp [h1, h2]

/-- C6 witness: the amended backspace-at-origin behaviour at a concrete
state with a non-empty redo stack. -/
theorem C6_backspace_origin_pushes_witness :
    ((⟨[str "q"], 0, 0, some 2, [], [⟨[[]], 0, 0⟩], none, none⟩ :
        TextBufferState).cursorRow = 0 ∧
      (⟨[str "q"], 0, 0, some 2, [], [⟨[[]], 0, 0⟩], none, none⟩ :
        TextBufferState).cursorCol = 0) ∧
    textBufferReducer ⟨[str "q"], 0, 0, some 2, [], [⟨[[]], 0, 0⟩], none, none⟩
        (.APPLY_OPERATIONS [.backspace]) =
      { (⟨[str "q"], 0, 0, some 2, [], [⟨[[]], 0, 0⟩], none, none⟩ :
          TextBufferState) with
        undoStack := pushUndoStack [] (snapshotOf
          ⟨[str "q"], 0, 0, some 2, [], [⟨[[]], 0, 0⟩], none, none⟩),
        redoStack := [], preferredCol := none } :=
  ⟨⟨rfl, rfl⟩,
    C6_backspace_origin_pushes
      ⟨[str "q"], 0, 0, some 2, [], [⟨[[]], 0, 0⟩], none, none⟩ rfl rfl⟩

/-- The last element of a pushed undo stack is the pushed snapshot, even
when the history limit drops the oldest entry. -/
theorem pushUndoStack_getLast (l : List UndoHistoryEntry) (snap : UndoHistoryEntry) :
    (pushUndoStack l snap).getLast? = some snap := by
  unfold pushUndoStack
  split
  · rename_i hlen
    cases l with
    | nil => simp [historyLimit] at hlen
    | cons x xs => simp [List.getLast?_concat]
  · simp [List.getLast?_concat]

/-- UNDO on a state whose undo stack was produced by a push restores the
pushed snapshot's lines and cursor. -/
theorem undo_restores_snapshot (s : TextBufferState) (l : List UndoHistoryEntry)
    (snap : UndoHistoryEntry) (h : s.undoStack = pushUndoStack l snap) :
    (textBufferReducer s .UNDO).lines = snap.lines ∧
    (textBufferReducer s .UNDO).cursorRow = snap.cursorRow ∧
    (textBufferReducer s .UNDO).cursorCol = snap.cursorCol := by
  have hl : s.undoStack.getLast? = some snap := by
    rw [h]; exact pushUndoStack_getLast l snap
  simp only [textBufferReducer, hl]
  exact ⟨trivial, trivial, trivial⟩

/-- Every mutating action (excluding `SET_TEXT` with `pushToUndo: false`)
either returns the state unchanged or leaves the undo stack equal to a
push of the pre-action snapshot. -/
theorem reducer_pushes (s : TextBufferState) (a : TextBufferAction)
    (h : mutatingPushesUndo a = true) :
    textBufferReducer s a = s ∨
    (textBufferReducer s a).undoStack = pushUndoStack s.undoStack (snapshotOf s) := by
  cases a with
  | SET_TEXT payload p =>
    right
    have hp : p ≠ some false := by simpa [mutatingPushesUndo] using h
    simp only [textBufferReducer, if_pos hp]
    rfl
  | APPLY_OPERATIONS ops =>
    by_cases h1 : ops = []
    · left; simp only [textBufferReducer, if_pos h1]
    · by_cases h2 : expandOps ops = []
      · left; simp only [textBufferReducer, if_neg h1, if_pos h2]
      · right; simp only [textBufferReducer, if_neg h1, if_neg h2]; rfl
  | MOVE dir vl => simp [mutatingPushesUndo] at h
  | DELETE =>
    simp only [textBufferReducer]
    split
    · right; rfl
    · split
      · right; rfl
      · left; rfl
  | DELETE_WORD_LEFT =>
    simp only [textBufferReducer]
    split
    · left; rfl
    · split
      · right; rfl
      · right; rfl
  | DELETE_WORD_RIGHT =>
    simp only [textBufferReducer]
    split
    · left; rfl
    · split
      · right; rfl
      · right; rfl
  | KILL_LINE_RIGHT =>
    simp only [textBufferReducer]
    split
    · right; rfl
    · split
      · right; rfl
      · left; rfl
  | KILL_LINE_LEFT =>
    simp only [textBufferReducer]
    split
    · right; rfl
    · left; rfl
  | UNDO => simp [mutatingPushesUndo] at h
  | REDO => simp [mutatingPushesUndo] at h
  | REPLACE_RANGE r1 c1 r2 c2 t =>
    simp only [textBufferReducer]
    split
    · left; rfl
    · right; rfl
  | MOVE_TO_OFFSET t o => simp [mutatingPushesUndo] at h
  | COPY => simp [mutatingPushesUndo] at h
  | PASTE =>
    simp only [textBufferReducer]
    split
    · left; rfl
    · split
      · right; rfl
      · right; rfl
  | START_SELECTION => simp [mutatingPushesUndo] at h

/-- C2 (amended): for every state `s` and every single mutating action
(SET_TEXT with `pushToUndo` not explicitly `false`, APPLY_OPERATIONS,
DELETE, DELETE_WORD_LEFT, DELETE_WORD_RIGHT, KILL_LINE_RIGHT,
KILL_LINE_LEFT, PASTE, REPLACE_RANGE) that changes the state, applying
UNDO to `apply(s, a)` yields a state whose lines, cursorRow and cursorCol
equal those of `s` exactly. -/
theorem C2_undo_restores_after_mutation (s : TextBufferState) (a : TextBufferAction)
    (hmut : mutatingPushesUndo a = true)
    (hchange : textBufferReducer s a ≠ s) :
    (textBufferReducer (textBufferReducer s a) .UNDO).lines = s.lines ∧
    (textBufferReducer (textBufferReducer s a) .UNDO).cursorRow = s.cursorRow ∧
    (textBufferReducer (textBufferReducer s a) .UNDO).cursorCol = s.cursorCol := by
  rcases reducer_pushes s a hmut with heq | hstack
  · exact absurd heq hchange
  · exact undo_restores_snapshot (textBufferReducer s a) s.undoStack (snapshotOf s) hstack

/-- C2 witness: a concrete SET_TEXT is undone exactly. -/
theorem C2_undo_restores_witness :
    (mutatingPushesUndo (.SET_TEXT (str "x") none) = true ∧
      textBufferReducer emptyBufferState (.SET_TEXT (str "x") none) ≠ emptyBufferState) ∧
    ((textBufferReducer (textBufferReducer emptyBufferState (.SET_TEXT (str "x") none))
        .UNDO).lines = emptyBufferState.lines ∧
      (textBufferReducer (textBufferReducer emptyBufferState (.SET_TEXT (str "x") none))
        .UNDO).cursorRow = emptyBufferState.cursorRow ∧
      (textBufferReducer (textBufferReducer emptyBufferState (.SET_TEXT (str "x") none))
        .UNDO).cursorCol = emptyBufferState.cursorCol) :=
  ⟨⟨by decide, by decide⟩,
    C2_undo_restores_after_mutation emptyBufferState (.SET_TEXT (str "x") none)
      (by decide) (by decide)⟩

theorem visualWidth_append (sw : Char → Nat) (a b : List Char) :
    visualWidth sw (a ++ b) = visualWidth sw a + visualWidth sw b := by
  simp [visualWidth]

theorem visualWidth_take_le (sw : Char → Nat) (l : List Char) (n : Nat) :
    visualWidth sw (l.take n) ≤ visualWidth sw l := by
  conv_rhs => rw [← List.take_append_drop n l]
  rw [visualWidth_append]
  omega

/-- The chunk produced by the inner layout loop fits the viewport width,
except when it is the single-too-wide-code-point hard break.  The
invariants say the chunk built so far is the prefix of the line from
`start`, its width is `w ≤ W`, and any recorded word break lies inside
it. -/
theorem chunkLoop_sound (sw : Char → Nat) (W : Nat) (cps : List Char) (start : Nat) :
    ∀ (cur : List Char) (i : Nat) (chunk : List Char) (w num : Nat)
      (brk : Option (Nat × Nat)),
      cps.drop start = chunk ++ cur →
      num = chunk.length →
      w = visualWidth sw chunk →
      w ≤ W →
      (∀ bi nb, brk = some (bi, nb) → nb ≤ chunk.length) →
      visualWidth sw (chunkLoop sw W cps start cur i chunk w num brk).1 ≤ W ∨
        ∃ c, (chunkLoop sw W cps start cur i chunk w num brk).1 = [c] ∧ W < sw c := by
  intro cur
  induction cur with
  | nil =>
    intro i chunk w num brk hpre hnum hw hwle hbrk
    left
    simp only [chunkLoop]
    omega
  | cons c rest ih =>
    intro i chunk w num brk hpre hnum hw hwle hbrk
    simp only [chunkLoop]
    by_cases hov : W < w + sw c
    · rw [if_pos hov]
      rcases brk with _ | ⟨bi, nb⟩
      all_goals dsimp only
      · by_cases hz : num = 0 ∧ W < sw c
        · rw [if_pos hz]
          right
          exact ⟨c, rfl, hz.2⟩
        · rw [if_neg hz]
          left
          exact hw ▸ hwle
      · by_cases hgb : 0 < nb ∧ start + nb < i
        · rw [if_pos hgb]
          left
          have hnb : nb ≤ chunk.length := hbrk bi nb rfl
          have ht : (cps.drop start).take nb = chunk.take nb := by
            rw [hpre]
            exact List.take_append_of_le_length hnb
          rw [ht]
          calc visualWidth sw (chunk.take nb) ≤ visualWidth sw chunk :=
                visualWidth_take_le sw chunk nb
            _ ≤ W := by omega
        · rw [if_neg hgb]
          by_cases hz : num = 0 ∧ W < sw c
          · rw [if_pos hz]
            right
            exact ⟨c, rfl, hz.2⟩
          · rw [if_neg hz]
            left
            exact hw ▸ hwle
    · rw [if_neg hov]
      refine ih (i + 1) (chunk ++ [c]) (w + sw c) (num + 1) _ ?_ ?_ ?_ ?_ ?_
      · rw [hpre]
        simp
      · simp [hnum]
      · rw [hw, visualWidth_append]
        simp [visualWidth]
      · omega
      · intro bi2 nb2 hb
        by_cases hsp : c = ' '
        · rw [if_pos hsp] at hb
          simp only [Option.some.injEq, Prod.mk.injEq] at hb
          simp [← hb.2, hnum]
        · rw [if_neg hsp] at hb
          have := hbrk bi2 nb2 hb
          simp
          omega

/-- One emitted chunk (inner loop plus safety net) fits the viewport or is
a single code point wider than it. -/
theorem nextChunk_sound (sw : Char → Nat) (W : Nat) (cps : List Char) (start : Nat) :
    visualWidth sw (nextChunk sw W cps start).1 ≤ W ∨
      ∃ c, (nextChunk sw W cps start).1 = [c] ∧ W < sw c := by
  unfold nextChunk
  split
  · cases hd : cps.drop start with
    | nil => left; simp [hd, visualWidth]
    | cons c cs =>
      by_cases hc : sw c ≤ W
      · left; simp [visualWidth, hc]
      · right; exact ⟨c, by simp, by omega⟩
  · exact chunkLoop_sound sw W cps start (cps.drop start) start [] 0 0 none
      (by simp) rfl rfl (by simp [visualWidth]) (by intro bi nb hco; cases hco)

/-- Each chunk consumes at least one code point while the line is not yet
exhausted. -/
theorem nextChunk_pos (sw : Char → Nat) (W : Nat) (cps : List Char) (start : Nat)
    (h : start < cps.length) : 0 < (nextChunk sw W cps start).2 := by
  unfold nextChunk
  split
  · exact Nat.one_pos
  · rename_i hc
    rcases Decidable.not_and_iff_or_not.mp hc with h1 | h2
    · omega
    · exact absurd h h2

/-- Every chunk of a wrapped logical line fits the viewport width or is a
single code point wider than it. -/
theorem wrapLineChunks_sound (sw : Char → Nat) (W : Nat) (cps : List Char) :
    ∀ (n start : Nat), cps.length - start ≤ n →
      ∀ p ∈ wrapLineChunks sw W cps start,
        visualWidth sw p.2 ≤ W ∨ ∃ c, p.2 = [c] ∧ W < sw c := by
  intro n
  induction n with
  | zero =>
    intro start hle p hp
    rw [wrapLineChunks] at hp
    rw [dif_neg (by omega)] at hp
    simp at hp
  | succ n ih =>
    intro start hle p hp
    rw [wrapLineChunks] at hp
    by_cases h : start < cps.length
    · rw [dif_pos h] at hp
      rcases List.mem_cons.mp hp with heq | hmem
      · subst heq
        exact nextChunk_sound sw W cps start
      · have hpos : 0 < (nextChunk sw W cps start).2 := nextChunk_pos sw W cps start h
        refine ih _ ?_ p hmem
        split <;> omega
    · rw [dif_neg h] at hp
      simp at hp

/-- A visual line contributed by one logical line of the layouter is
either inherited from the accumulator, the empty line, or a wrapped
chunk. -/
theorem layoutLineStep_mem (sw : Char → Nat) (W : Nat) (lc : Nat × Nat)
    (acc : LayoutAcc) (p : Nat × List Char) (v : List Char)
    (hv : v ∈ (layoutLineStep sw W lc acc p).visualLines) :
    v ∈ acc.visualLines ∨ v = [] ∨ ∃ q ∈ wrapLineChunks sw W p.2 0, v = q.2 := by
  unfold layoutLineStep at hv
  by_cases h : p.2.length = 0
  · rw [if_pos h] at hv
    simp at hv
    rcases hv with h1 | h2
    · exact Or.inl h1
    · exact Or.inr (Or.inl h2)
  · rw [if_neg h] at hv
    simp only [List.mem_append, List.mem_map] at hv
    rcases hv with h1 | ⟨q, hq, hqv⟩
    · exact Or.inl h1
    · exact Or.inr (Or.inr ⟨q, hq, hqv.symm⟩)

/-- The width bound is preserved by the layout fold over logical lines. -/
theorem layoutFold_sound (sw : Char → Nat) (W : Nat) (lc : Nat × Nat) :
    ∀ (l : List (Nat × List Char)) (acc : LayoutAcc),
      (∀ v ∈ acc.visualLines, visualWidth sw v ≤ W ∨ ∃ c, v = [c] ∧ W < sw c) →
      ∀ v ∈ (l.foldl (layoutLineStep sw W lc) acc).visualLines,
        visualWidth sw v ≤ W ∨ ∃ c, v = [c] ∧ W < sw c := by
  intro l
  induction l with
  | nil => intro acc hacc v hv; exact hacc v hv
  | cons x xs ih =>
    intro acc hacc v hv
    simp only [List.foldl] at hv
    refine ih (layoutLineStep sw W lc acc x) ?_ v hv
    intro u hu
    rcases layoutLineStep_mem sw W lc acc x u hu with h1 | h2 | ⟨q, hq, hqv⟩
    · exact hacc u h1
    · left
      subst h2
      simp [visualWidth]
    · subst hqv
      exact wrapLineChunks_sound sw W x.2 x.2.length 0 (by omega) q hq

/-- C9: for every string-width function, every list of logical lines,
every logical cursor and every viewport width ≥ 1, every visual line
produced by the layouter has visual width at most the viewport width,
except a visual line consisting of a single code point whose own width
exceeds the viewport width. -/
theorem C9_visual_width (sw : Char → Nat) (viewportWidth : Nat)
    (logicalLines : List (List Char)) (logicalCursor : Nat × Nat)
    (hW : 1 ≤ viewportWidth) :
    ∀ v ∈ (calculateVisualLayout sw logicalLines logicalCursor viewportWidth).visualLines,
      visualWidth sw v ≤ viewportWidth ∨ ∃ c, v = [c] ∧ viewportWidth < sw c := by
  intro v hv
  simp only [calculateVisualLayout] at hv
  have hacc := layoutFold_sound sw viewportWidth logicalCursor logicalLines.enum
    ⟨[], [], [], (0, 0)⟩ (by intro u hu; simp at hu)
  split at hv
  · split at hv
    · simp only [VisualLayout.visualLines] at hv
      rcases List.mem_append.mp hv with h1 | h2
      · exact hacc v h1
      · left
        have hvnil : v = [] := by simpa using h2
        subst hvnil
        simp [visualWidth]
    · exact hacc v hv
  · split at hv
    · exact hacc v hv
    · exact hacc v hv

/-- C9 witness: the width bound at a concrete layout call. -/
theorem C9_visual_width_witness :
    1 ≤ 2 ∧
    ∀ v ∈ (calculateVisualLayout (fun _ => 1) [str "abc"] (0, 0) 2).visualLines,
      visualWidth (fun _ => 1) v ≤ 2 ∨ ∃ c, v = [c] ∧ 2 < (fun _ => 1) c :=
  ⟨by decide, C9_visual_width (fun _ => 1) 2 [str "abc"] (0, 0) (by decide)⟩

/-- The loop of `offsetToLogicalPos`, with its fallback, computes the
spec's piecewise function, for any starting line index and any
accumulated offset strictly below the target offset. -/
theorem offRun_spec (offset : Nat) :
    ∀ (ls : List (List Char)) (i currentOffset : Nat), currentOffset < offset →
      offRun offset ls i currentOffset =
        offsetToLogicalSpecAux i (offset - currentOffset) ls := by
  intro ls
  induction ls with
  | nil =>
    intro i cur hc
    simp [offRun, offsetToLogicalAux, offsetToLogicalSpecAux, cpLen]
  | cons line rest ih =>
    intro i cur hc
    cases rest with
    | nil =>
      by_cases h1 : offset ≤ cur + cpLen line
      · have e1 : offRun offset [line] i cur = (i, offset - cur) := by
          unfold offRun
          simp [offsetToLogicalAux, h1]
        have e2 : offsetToLogicalSpecAux i (offset - cur) [line] = (i, offset - cur) := by
          have h2 : offset - cur ≤ cpLen line := by omega
          simp [offsetToLogicalSpecAux, h2]
        rw [e1, e2]
      · have e1 : offRun offset [line] i cur = (i, cpLen line) := by
          unfold offRun
          simp [offsetToLogicalAux, h1]
        have e2 : offsetToLogicalSpecAux i (offset - cur) [line] = (i, cpLen line) := by
          have h2 : ¬ (offset - cur ≤ cpLen line) := by omega
          simp [offsetToLogicalSpecAux, h2]
        rw [e1, e2]
    | cons l2 rs =>
      by_cases h1 : offset ≤ cur + cpLen line
      · have e1 : offRun offset (line :: l2 :: rs) i cur = (i, offset - cur) := by
          unfold offRun
          simp [offsetToLogicalAux, h1]
        have e2 : offsetToLogicalSpecAux i (offset - cur) (line :: l2 :: rs) =
            (i, offset - cur) := by
          have h2 : offset - cur ≤ cpLen line := by omega
          simp [offsetToLogicalSpecAux, h2]
        rw [e1, e2]
      · by_cases h3 : offset = cur + cpLen line + 1
        · have e1 : offRun offset (line :: l2 :: rs) i cur = (i + 1, 0) := by
            unfold offRun
            have t1 : offset ≤ cur + (cpLen line + 1) := by omega
            have t2 : offset = cur + (cpLen line + 1) := by omega
            simp [offsetToLogicalAux, h1, t1, t2]
          have e2 : offsetToLogicalSpecAux i (offset - cur) (line :: l2 :: rs) =
              (i + 1, 0) := by
            have h2 : ¬ (offset - cur ≤ cpLen line) := by omega
            have h4 : offset - cur = cpLen line + 1 := by omega
            simp [offsetToLogicalSpecAux, h2, h4]
          rw [e1, e2]
        · have h5 : ¬ (offset ≤ cur + (cpLen line + 1)) := by omega
          have ha : offsetToLogicalAux offset (line :: l2 :: rs) i cur =
              offsetToLogicalAux offset (l2 :: rs) (i + 1) (cur + (cpLen line + 1)) := by
            simp [offsetToLogicalAux, h1, h5]
          have e1 : offRun offset (line :: l2 :: rs) i cur =
              offRun offset (l2 :: rs) (i + 1) (cur + (cpLen line + 1)) := by
            unfold offRun
            rw [ha]
            cases hx : offsetToLogicalAux offset (l2 :: rs) (i + 1) (cur + (cpLen line + 1)) with
            | some p => rfl
            | none =>
              simp only [List.length_cons, List.getD_cons_succ]
              refine Prod.ext ?_ rfl
              simp
              omega
          have e2 : offsetToLogicalSpecAux i (offset - cur) (line :: l2 :: rs) =
              offsetToLogicalSpecAux (i + 1) ((offset - cur) - (cpLen line + 1)) (l2 :: rs) := by
            have h2 : ¬ (offset - cur ≤ cpLen line) := by omega
            have h4 : ¬ (offset - cur = cpLen line + 1) := by omega
            simp [offsetToLogicalSpecAux, h2, h4]
          have h6 : offset - (cur + (cpLen line + 1)) = (offset - cur) - (cpLen line + 1) := by
            omega
          rw [e1, ih (i + 1) (cur + (cpLen line + 1)) (by omega), h6, e2]

/-- JavaScript `split('\n')` always yields at least one piece. -/
theorem splitNl_ne_nil (s : List Char) : splitNl s ≠ [] := by
  cases s with
  | nil => simp [splitNl]
  | cons c rest =>
    simp only [splitNl]
    split
    · simp
    · split <;> simp

/-- The spec's piecewise map sends offset 0 to the start of the first
remaining line. -/
theorem offsetToLogicalSpecAux_zero (i : Nat) (ls : List (List Char)) (h : ls ≠ []) :
    offsetToLogicalSpecAux i 0 ls = (i, 0) := by
  match ls with
  | [] => exact absurd rfl h
  | [line] => simp [offsetToLogicalSpecAux]
  | line :: l2 :: rs => simp [offsetToLogicalSpecAux]

/-- C8: for every text and offset, `offsetToLogicalPos` equals the spec's
piecewise definition: offset 0 maps to (0,0); an offset within the body of
line i maps to `(i, offset - prior lengths)`; an offset landing exactly on
the separator after a non-last line i maps to `(i+1, 0)` (and to the end
of line i when i is last); an offset exceeding the total length maps to
the end of the last line. -/
theorem C8_offsetToLogicalPos_spec (text : List Char) (offset : Nat) :
    offsetToLogicalPos text offset = offsetToLogicalSpec text offset := by
  unfold offsetToLogicalPos offsetToLogicalSpec
  by_cases h0 : offset = 0
  · subst h0
    rw [if_pos rfl, offsetToLogicalSpecAux_zero 0 _ (splitNl_ne_nil text)]
  · rw [if_neg h0]
    have hr := offRun_spec offset (splitNl text) 0 0 (by omega)
    rw [Nat.sub_zero] at hr
    rw [← hr]
    unfold offRun
    cases hx : offsetToLogicalAux offset (splitNl text) 0 0 with
    | some p => simp [hx]
    | none =>
      have hlen : 0 < (splitNl text).length :=
        List.length_pos.mpr (splitNl_ne_nil text)
      simp [hx, hlen]

/-- C10: UNDO and REDO leave the clipboard and the selection anchor
unchanged: history snapshots carry only `lines`, `cursorRow` and
`cursorCol`, so undoing or redoing never restores the clipboard or the
selection anchor. -/
theorem C10_undo_redo_frame (s : TextBufferState) :
    (textBufferReducer s .UNDO).clipboard = s.clipboard ∧
    (textBufferReducer s .UNDO).selectionAnchor = s.selectionAnchor ∧
    (textBufferReducer s .REDO).clipboard = s.clipboard ∧
    (textBufferReducer s .REDO).selectionAnchor = s.selectionAnchor := by
  refine ⟨?_, ?_, ?_, ?_⟩ <;>
    · simp only [textBufferReducer]
      rcases h : s.undoStack.getLast? with _ | e <;>
        rcases h2 : s.redoStack.getLast? with _ | e2 <;> rfl
